import Mathlib

/-!
Verification of the CareerBuddy conversation-context assembly core.

This file gives a shallow embedding of the logic feeding the AI Buddy chat
feature of the CareerBuddy desktop application:

* `services/file_extract.py` — attachment text extraction and clipping;
* `services/db.py`           — the memory / message query layer
  (`ai_list_memories`, `ai_search_memories`, `ai_get_messages`, ...);
* `ui_qt/aibuddy.py`         — context building (`_app_context`,
  `_memory_context`, `_attachments_context`, `_build_messages`), the slash
  command interpreter (`_handle_command`) and the send / stream-completion
  flow (`send`, `_on_done`, `_on_error`).

Python strings are modelled as Lean `String` / `List Char` (Python indexing
and slicing is by code point, as is `List Char`).  Database reads that can
raise are modelled as `Except Unit` values; the `SELECT ... ORDER BY ... LIMIT`
queries are modelled as filter / sort / take over the table contents, with
SQLite `LIKE` matching modelled character by character (ASCII
case-insensitive, `%` and `_` wildcards, as SQLite implements it).
Monotonically assigned row ids mean "most recent first" is "highest id
first"; messages of the active conversation are kept as a list in insertion
(= id) order.
-/

namespace CareerBuddy

/-! ### Python string primitives -/

/-- ASCII lower-casing of one character (the only case folding SQLite's
`LIKE` performs, and the behaviour of `str.lower` on the ASCII command
strings used here). -/
def lowerA (c : Char) : Char :=
  if 'A' ≤ c ∧ c ≤ 'Z' then Char.ofNat (c.toNat + 32) else c

/-- Python `str.strip()` on a character list: remove leading and trailing
whitespace. -/
def pyStripL (l : List Char) : List Char :=
  ((l.dropWhile Char.isWhitespace).reverse.dropWhile Char.isWhitespace).reverse

/-- Python `str.strip()` on a `String`. -/
def pyStripS (s : String) : String :=
  String.mk (pyStripL s.data)

/-- Python `sep.join(lines)`. -/
def pyJoin (sep : String) : List String → String
  | [] => ""
  | [a] => a
  | a :: b :: rest => a ++ sep ++ pyJoin sep (b :: rest)

/-- Helper for `splitWs`: `acc` holds the reversed characters of the token
currently being read. -/
def splitWsAux : List Char → List Char → List (List Char)
  | [], acc => if acc.isEmpty then [] else [acc.reverse]
  | c :: cs, acc =>
    if c.isWhitespace then
      if acc.isEmpty then splitWsAux cs [] else acc.reverse :: splitWsAux cs []
    else splitWsAux cs (c :: acc)

/-- Python `str.split()` (split on whitespace runs, no empty tokens). -/
def splitWs (l : List Char) : List (List Char) :=
  splitWsAux l []

/-- Valid tail of a Python integer literal body: digits with single
underscores allowed between digits. -/
def digitsTail : List Char → Bool
  | [] => true
  | ['_'] => false
  | '_' :: d :: rest => d.isDigit && digitsTail (d :: rest)
  | c :: rest => c.isDigit && digitsTail rest

/-- Valid Python integer literal body: nonempty, starts with a digit. -/
def digitsOkL (l : List Char) : Bool :=
  match l with
  | [] => false
  | c :: rest => c.isDigit && digitsTail rest

/-- Numeric value of a digit string (underscores skipped). -/
def digitsValue (l : List Char) : Nat :=
  l.foldl (fun acc c => if c = '_' then acc else acc * 10 + (c.toNat - '0'.toNat)) 0

/-- Python `int(s)`: strip whitespace, optional sign, digit body; `none`
models the `ValueError` raised on anything else. -/
def pyInt (s : String) : Option Int :=
  match pyStripL s.data with
  | '+' :: rest => if digitsOkL rest then some (Int.ofNat (digitsValue rest)) else none
  | '-' :: rest => if digitsOkL rest then some (-(Int.ofNat (digitsValue rest))) else none
  | rest => if digitsOkL rest then some (Int.ofNat (digitsValue rest)) else none

/-! ### Attachment extractor (`services/file_extract.py`) -/

/-- The truncation marker appended by `_clip`. -/
def truncMarker : List Char := "\n\n[...truncated...]".data

/-- `_clip(text, max_chars)` from `services/file_extract.py`:
strip, return unchanged if within budget, otherwise cut to `max_chars`
characters and append the truncation marker. -/
def clip (text : String) (max_chars : Nat) : String :=
  let t := pyStripL text.data
  if t.length ≤ max_chars then String.mk t
  else String.mk (t.take max_chars ++ truncMarker)

/-- Input to `extract_text_from_file`, abstracting the file system: which
branch of the extension dispatch is taken, and the raw text the body of
that branch would produce (`none` models a library-missing or raised-and-
caught extraction failure, which the source turns into `""`). -/
inductive FileInput where
  | missing
  | textFile (raw : Option String)
  | docxFile (raw : Option String)
  | pdfFile (raw : Option String)
  | other
deriving DecidableEq

/-- `extract_text_from_file(path, max_chars)`: returns `(label, text)`;
every successful branch routes its raw text through `_clip`, every failing
branch returns the empty string. -/
def extract_text_from_file (input : FileInput) (max_chars : Nat) : String × String :=
  match input with
  | .missing => ("MISSING", "")
  | .textFile none => ("TEXT", "")
  | .textFile (some t) => ("TEXT", clip t max_chars)
  | .docxFile none => ("DOCX", "")
  | .docxFile (some t) => ("DOCX", clip t max_chars)
  | .pdfFile none => ("PDF", "")
  | .pdfFile (some t) => ("PDF", clip t max_chars)
  | .other => ("UNKNOWN", "")

/-! ### Data model (`services/db.py` tables, AI-relevant rows) -/

/-- A row of `ai_memories`: `(id, ts, type, content, importance, pinned)`.
`pinned` is the 0/1 integer SQLite stores. -/
structure Mem where
  id : Nat
  ts : String
  mtype : String
  content : String
  importance : Int
  pinned : Nat
deriving DecidableEq

/-- A row of `jobs` as selected by `get_all_jobs`
(`id, company, role, status, notes, date_added`), already in the
`date_added DESC` order the query returns. -/
structure Job where
  id : Nat
  company : String
  role : String
  status : String
  notes : String
  date_added : String
deriving DecidableEq

/-- A row of `reminders` as selected by `list_reminders_for_date`. -/
structure Reminder where
  id : Nat
  title : String
  description : String
  date : String
  time : String
  category : String
deriving DecidableEq

/-- A row of `files` as selected by `list_files`
(`id, filename, original_name, category, date_added`), in the
`date_added DESC` order the query returns. -/
structure FileRec where
  id : Nat
  filename : String
  original_name : String
  category : String
  date_added : String
deriving DecidableEq

/-- A stored `ai_messages` row of the active conversation (role and content;
rows are kept in insertion = id order, timestamps are not used by the
logic). -/
structure StoredMsg where
  role : String
  content : String
deriving DecidableEq

/-- One `{role, content}` entry of the list sent to the model. -/
structure Msg where
  role : String
  content : String
deriving DecidableEq

/-- A session attachment (`Attachment` dataclass in `ui_qt/aibuddy.py`). -/
structure Attachment where
  path : String
  name : String
  label : String
  text : String
  added_at : String
deriving DecidableEq

/-! ### Memory queries (`CareerDB.ai_list_memories` / `ai_search_memories`) -/

/-- `ORDER BY pinned DESC, importance DESC, id DESC`: `a` sorts no later
than `b`.  The `id` component is a total tie-break since ids are unique. -/
def memBefore (a b : Mem) : Prop :=
  b.pinned < a.pinned ∨
    (a.pinned = b.pinned ∧
      (b.importance < a.importance ∨ (a.importance = b.importance ∧ b.id ≤ a.id)))

instance : DecidableRel memBefore := fun a b => by
  unfold memBefore; infer_instance

/-- `ORDER BY id DESC`: `a` sorts no later than `b`. -/
def idDesc (a b : Mem) : Prop := b.id ≤ a.id

instance : DecidableRel idDesc := fun a b => by
  unfold idDesc; infer_instance

/-- Does `f` hold of some suffix of the list (the list itself included)? -/
def anySuffix (f : List Char → Bool) : List Char → Bool
  | [] => f []
  | c :: s => f (c :: s) || anySuffix f s

/-- SQLite `LIKE` matching over characters: `%` matches any sequence, `_`
any single character, anything else matches ASCII case-insensitively. -/
def likeM : List Char → List Char → Bool
  | [] => fun s => s.isEmpty
  | p :: ps => fun s =>
    if p = '%' then anySuffix (likeM ps) s
    else
      match s with
      | [] => false
      | c :: s' => if p = '_' then likeM ps s' else (lowerA p == lowerA c) && likeM ps s'

/-- The `LIKE` pattern `f"%{(query or '').strip()}%"` built by
`ai_search_memories`. -/
def patOf (query : String) : List Char :=
  '%' :: (pyStripL query.data ++ ['%'])

/-- `CareerDB.ai_list_memories(pinned_first, limit)` over the table
contents: sort, then `LIMIT`. -/
def ai_list_memories (pinned_first : Bool) (limit : Nat) (ms : List Mem) : List Mem :=
  if pinned_first then (List.insertionSort memBefore ms).take limit
  else (List.insertionSort idDesc ms).take limit

/-- `CareerDB.ai_search_memories(query, limit)` over the table contents:
`WHERE content LIKE ?`, then sort, then `LIMIT`. -/
def ai_search_memories (query : String) (limit : Nat) (ms : List Mem) : List Mem :=
  (List.insertionSort memBefore
    (ms.filter (fun m => likeM (patOf query) m.content.data))).take limit

/-- The last `n` elements of `l` in order: `ORDER BY id DESC LIMIT n`
followed by `reversed(...)`, as `CareerDB.ai_get_messages` does. -/
def lastN (n : Nat) (l : List α) : List α := l.drop (l.length - n)

/-- `CareerDB.ai_get_messages(conversation_id, limit)` over the active
conversation's messages (insertion order): the last `limit` messages,
oldest first. -/
def ai_get_messages (limit : Nat) (msgs : List StoredMsg) : List StoredMsg :=
  lastN limit msgs

/-! ### Memory context (`AIBuddyPage._memory_context`) -/

/-- The line format `f"- [#{mid}] ({mem_type}) {content}"`. -/
def mem_line (m : Mem) : String :=
  "- [#" ++ toString m.id ++ "] (" ++ m.mtype ++ ") " ++ m.content

/-- The memories selected for the "Pinned" and "Relevant" parts of the
memory context: pinned = the flagged rows of `ai_list_memories(pinned_first=True,
limit=50)`; relevant = `ai_search_memories(user_text, limit=20)` (empty when
the user text is blank), minus ids already pinned. -/
def memory_context_sel (ms : List Mem) (user_text : String) : List Mem × List Mem :=
  let pinnedFetch := ai_list_memories true 50 ms
  let relevant :=
    if pyStripL user_text.data = [] then [] else ai_search_memories user_text 20 ms
  let pinnedSel := pinnedFetch.filter (fun m => m.pinned == 1)
  let pinnedIds : List Nat := pinnedSel.map (fun m => m.id)
  let relSel := relevant.filter (fun m => decide (m.id ∉ pinnedIds))
  (pinnedSel, relSel)

/-- The lines of the memory context (empty when nothing is selected). -/
def memory_context_lines (ms : List Mem) (user_text : String) : List String :=
  let sel := memory_context_sel ms user_text
  let pinned_lines := sel.1.map mem_line
  let rel_lines := sel.2.map mem_line
  if pinned_lines.isEmpty && rel_lines.isEmpty then []
  else
    "User memory context:" ::
      ((if pinned_lines.isEmpty then [] else "\nPinned:" :: pinned_lines) ++
        (if rel_lines.isEmpty then [] else "\nRelevant:" :: rel_lines))

/-- `AIBuddyPage._memory_context`: `""` when nothing is selected, else the
joined and stripped lines. -/
def memory_context (ms : List Mem) (user_text : String) : String :=
  let sel := memory_context_sel ms user_text
  if sel.1.isEmpty && sel.2.isEmpty then ""
  else pyStripS (pyJoin "\n" (memory_context_lines ms user_text))

/-! ### Application state snapshot (`AIBuddyPage._app_context`) -/

/-- `f"- #{jid}: {company} — {role} ({status}) added {date_added}"`. -/
def job_line (j : Job) : String :=
  "- #" ++ toString j.id ++ ": " ++ j.company ++ " — " ++ j.role ++ " (" ++
    j.status ++ ") added " ++ j.date_added

/-- `f"- {date} {time} — {title} [{category}]"`. -/
def reminder_line (r : Reminder) : String :=
  "- " ++ r.date ++ " " ++ r.time ++ " — " ++ r.title ++ " [" ++ r.category ++ "]"

/-- `f"- #{fid}: {original_name} [{category}] added {date_added}"`. -/
def file_line (f : FileRec) : String :=
  "- #" ++ toString f.id ++ ": " ++ f.original_name ++ " [" ++ f.category ++
    "] added " ++ f.date_added

/-- The jobs block of the snapshot.  `get_all_jobs()[:10]` runs inside
`try/except`, so a failed read (`.error`) degrades to the empty list. -/
def jobs_section (jobs : Except Unit (List Job)) : List String :=
  let js := match jobs with
    | .ok l => l.take 10
    | .error _ => []
  if js.isEmpty then ["\nRecent job applications: none"]
  else "\nRecent job applications:" :: js.map job_line

/-- The reminders block.  `rems` is the concatenation, day by day, of the
seven `list_reminders_for_date` results (each in `ORDER BY time`); the whole
loop runs inside one `try/except`, so any failure degrades to the empty
list.  At most 12 lines are rendered. -/
def reminders_section (rems : Except Unit (List Reminder)) : List String :=
  let rl := match rems with
    | .ok l => l.map reminder_line
    | .error _ => []
  if rl.isEmpty then ["\nUpcoming reminders (7 days): none"]
  else "\nUpcoming reminders (7 days):" :: rl.take 12

/-- The files block: `list_files("All")[:10]` inside `try/except`. -/
def files_section (files : Except Unit (List FileRec)) : List String :=
  let fs := match files with
    | .ok l => l.take 10
    | .error _ => []
  if fs.isEmpty then ["\nRecent File Vault items: none"]
  else "\nRecent File Vault items:" :: fs.map file_line

/-- The lines accumulated by `AIBuddyPage._app_context`. -/
def app_context_lines (jobs : Except Unit (List Job)) (rems : Except Unit (List Reminder))
    (files : Except Unit (List FileRec)) : List String :=
  "CareerBuddy app context (read-only):" ::
    (jobs_section jobs ++ (reminders_section rems ++ files_section files))

/-- `AIBuddyPage._app_context`: `"\n".join(lines).strip()`. -/
def app_context (jobs : Except Unit (List Job)) (rems : Except Unit (List Reminder))
    (files : Except Unit (List FileRec)) : String :=
  pyStripS (pyJoin "\n" (app_context_lines jobs rems files))

/-! ### Attachment context (`AIBuddyPage._attachments_context`) -/

/-- One attachment block: stripped extracted text, or the explicit
no-text notice. -/
def att_block (a : Attachment) : String :=
  if pyStripL a.text.data = [] then
    "\n--- " ++ a.name ++ " (" ++ a.label ++ ") ---\n[No extracted text available]"
  else
    "\n--- " ++ a.name ++ " (" ++ a.label ++ ") ---\n" ++ pyStripS a.text

/-- The lines of the attachment context: a header plus one block per
attachment in `self._attachments[-3:]` (the last three, in addition
order). -/
def attachments_context_blocks (atts : List Attachment) : List String :=
  if atts.isEmpty then []
  else
    "Attached documents below are available to you as text. Use them directly as ground truth." ::
      (atts.drop (atts.length - 3)).map att_block

/-- `AIBuddyPage._attachments_context`. -/
def attachments_context (atts : List Attachment) : String :=
  if atts.isEmpty then ""
  else pyStripS (pyJoin "\n" (attachments_context_blocks atts))

/-! ### Context builder (`AIBuddyPage._build_messages`) -/

/-- The store reads contributing to one turn, each either the fetched rows
or a raised storage error, plus the session attachments.  `reminders` is
the concatenated seven-day fetch (see `reminders_section`). -/
structure View where
  jobs : Except Unit (List Job)
  reminders : Except Unit (List Reminder)
  files : Except Unit (List FileRec)
  memories : Except Unit (List Mem)
  messages : Except Unit (List StoredMsg)
  attachments : List Attachment

/-- The history part of the built list: last 16 stored messages, roles
outside `{"user", "assistant"}` dropped, re-tagged as model messages. -/
def history_section (msgs : List StoredMsg) : List Msg :=
  ((ai_get_messages 16 msgs).filter
    (fun m => m.role == "user" || m.role == "assistant")).map
      (fun m => ⟨m.role, m.content⟩)

/-- `AIBuddyPage._build_messages(user_text)`.  The snapshot swallows its
own per-section store failures; the memory reads and the history read are
unguarded, so their failures propagate (`Except.error`). -/
def build_messages (v : View) (user_text : String) : Except Unit (List Msg) := do
  let app_ctx := app_context v.jobs v.reminders v.files
  let ms ← v.memories
  let mem_ctx := memory_context ms user_text
  let att_ctx := attachments_context v.attachments
  let hist ← v.messages
  pure ((if app_ctx = "" then [] else [⟨"system", app_ctx⟩]) ++
    ((if mem_ctx = "" then [] else [⟨"system", mem_ctx⟩]) ++
      ((if att_ctx = "" then [] else [⟨"system", att_ctx⟩]) ++
        (history_section hist ++ [⟨"user", user_text⟩]))))

/-! ### One turn (`AIBuddyPage.send` / `_on_done` / `_on_error`) -/

/-- A failure-free store state for one chat session. -/
structure ChatState where
  jobs : List Job
  reminders : List Reminder
  files : List FileRec
  memories : List Mem
  messages : List StoredMsg
  attachments : List Attachment

/-- The all-reads-succeed view of a `ChatState`. -/
def viewOf (st : ChatState) : View :=
  ⟨.ok st.jobs, .ok st.reminders, .ok st.files, .ok st.memories, .ok st.messages,
    st.attachments⟩

/-- The message list `send` hands to the streaming worker for one user
turn: `send` first persists the user message
(`db.ai_add_message(conversation_id, "user", text)`), then calls
`_build_messages(text)`. -/
def build_turn (st : ChatState) (text : String) : List Msg :=
  let st' := { st with messages := st.messages ++ [⟨"user", text⟩] }
  match build_messages (viewOf st') text with
  | .ok l => l
  | .error _ => []

/-- `_clean_ai_text`: remove the markdown emphasis markers, in source
order. -/
def clean_ai_text (s : String) : String :=
  (((s.replace "**" "").replace "__" "").replace "*" "").replace "`" ""

/-- The text `_on_done` persists:
`_clean_ai_text((full_text or "").strip()) or "…"`. -/
def final_assistant_text (full : String) : String :=
  let f := clean_ai_text (pyStripS full)
  if f = "" then "…" else f

/-- How one streamed model call ends: the full text on completion, or an
error/interruption surfaced by the worker. -/
inductive StreamOutcome where
  | done (full : String)
  | error (msg : String)

/-- The store writes of one turn, in program order: `send` appends the user
message before starting the stream; `_on_done` appends the assistant
message after the full response arrived; `_on_error` shows a warning bubble
but writes nothing. -/
def run_turn (msgs : List StoredMsg) (text : String) : StreamOutcome → List StoredMsg
  | .done full => (msgs ++ [⟨"user", text⟩]) ++ [⟨"assistant", final_assistant_text full⟩]
  | .error _ => msgs ++ [⟨"user", text⟩]

/-! ### Command interpreter (`AIBuddyPage._handle_command`) -/

/-- A Persistent Store mutation a command may perform. -/
inductive Mutation where
  | addMemory (mtype content : String) (importance : Int) (pinned : Nat)
  | setPinned (id : Int) (value : Nat)
  | deleteMemory (id : Int)
  | newConversation
deriving DecidableEq

/-- Result of `_handle_command`: whether the input was a command
(`handled = false` means pass-through to the model path), the assistant
bubbles shown, and the store mutations performed.  The handler itself never
raises: argument errors become response strings. -/
structure CmdOutcome where
  handled : Bool
  responses : List String
  mutations : List Mutation
deriving DecidableEq

/-- The listing line of `/memories`:
`f"{pin} #{mid} ({mem_type}, imp={imp}) — {content}"`. -/
def mem_listing_line (m : Mem) : String :=
  (if m.pinned == 1 then "📌" else " ") ++ " #" ++ toString m.id ++ " (" ++
    m.mtype ++ ", imp=" ++ toString m.importance ++ ") — " ++ m.content

/-- The bubbles of the `/memories` command. -/
def memories_response (ms : List Mem) : List String :=
  let mems := ai_list_memories true 50 ms
  if mems.isEmpty then ["No memories saved yet.\nUse: /remember <text>"]
  else
    [pyJoin "\n"
      ("Saved memories (use /pin <id>, /unpin <id>, /forget <id>):" ::
        mems.map mem_listing_line)]

/-- The fixed help bubble for unknown commands. -/
def unknown_command_response : String :=
  "Unknown command.\n\nCommands:\n- /remember <text>\n- /memories\n- /pin <id>\n- /unpin <id>\n- /forget <id>\n- /new"

/-- The command dispatch of `_handle_command` once the stripped input `td`
is known to start with `/`: `toks` is its whitespace split
(`parts = t.split(maxsplit=2)`; only `parts[0]`, `parts[1]` and
`len(parts)` are consulted, so the full whitespace split is equivalent);
`cmd = parts[0].lower()`.  `/pin`, `/unpin` and `/forget` parse their
argument with `int(...)` inside `try/except`, so a non-integer argument
yields the "Could not ..." bubble and no store call. -/
def handle_slash (td : List Char) (toks : List (List Char)) (ms : List Mem) : CmdOutcome :=
    let cmd := (toks.headD []).map lowerA
    if cmd = "/new".data ∨ cmd = "/reset".data then
      ⟨true, ["New chat started. How can I help?"], [.newConversation]⟩
    else if cmd = "/memories".data ∨ cmd = "/memory".data then
      ⟨true, memories_response ms, []⟩
    else if cmd = "/remember".data then
      if toks.length < 2 then ⟨true, ["Usage: /remember <something to remember>"], []⟩
      else
        let content := String.mk (pyStripL (td.drop 9))
        ⟨true,
          ["Saved memory ✅\n\n“" ++ content ++
            "”\n\nTip: /pin <id> to keep it always included."],
          [.addMemory "fact" content 6 0]⟩
    else if cmd = "/pin".data then
      if toks.length < 2 then ⟨true, ["Usage: /pin <memory_id>"], []⟩
      else
        match pyInt (String.mk (toks.getD 1 [])) with
        | some mid => ⟨true, ["Pinned memory #" ++ toString mid ++ " 📌"], [.setPinned mid 1]⟩
        | none => ⟨true, ["Could not pin that memory id."], []⟩
    else if cmd = "/unpin".data then
      if toks.length < 2 then ⟨true, ["Usage: /unpin <memory_id>"], []⟩
      else
        match pyInt (String.mk (toks.getD 1 [])) with
        | some mid => ⟨true, ["Unpinned memory #" ++ toString mid], [.setPinned mid 0]⟩
        | none => ⟨true, ["Could not unpin that memory id."], []⟩
    else if cmd = "/forget".data ∨ cmd = "/delete_memory".data then
      if toks.length < 2 then ⟨true, ["Usage: /forget <memory_id>"], []⟩
      else
        match pyInt (String.mk (toks.getD 1 [])) with
        | some mid => ⟨true, ["Deleted memory #" ++ toString mid], [.deleteMemory mid]⟩
        | none => ⟨true, ["Could not delete that memory id."], []⟩
    else ⟨true, [unknown_command_response], []⟩

/-- `AIBuddyPage._handle_command(text)`: `t = text.strip()`; inputs not
starting with `/` pass through untouched (`handled = false`); otherwise the
slash dispatch above runs on the whitespace tokens. -/
def handle_command (text : String) (ms : List Mem) : CmdOutcome :=
  if (pyStripL text.data).head? = some '/' then
    handle_slash (pyStripL text.data) (splitWs (pyStripL text.data)) ms
  else ⟨false, [], []⟩

/-! ### Auxiliary definitions for the statements -/

/-- Number of occurrences of the entry `m` in a message list. -/
def countMsg (m : Msg) (l : List Msg) : Nat :=
  (l.filter (fun x => decide (x = m))).length

/-- The spec's description of `search(query, limit)` (§4.2), stated in its
own words for comparison with `ai_search_memories`: "memories whose content
contains the query as a substring (case-insensitive)", ordered by
(pinned desc, importance desc, recency desc with highest id first),
bounded by `limit`. -/
def search_spec (query : String) (limit : Nat) (ms : List Mem) : List Mem :=
  (List.insertionSort memBefore
    (ms.filter (fun m =>
      decide ((query.data.map lowerA) <:+: (m.content.data.map lowerA))))).take limit

/-! ### Helper lemmas: text primitives -/

theorem mem_dropWhile_of_neg {p : Char → Bool} {c : Char} :
    ∀ {l : List Char}, c ∈ l → p c = false → c ∈ l.dropWhile p
  | a :: l, hc, hpc => by
    by_cases hpa : p a = true
    · rw [List.dropWhile_cons, if_pos hpa]
      rcases List.mem_cons.mp hc with h | h
      · subst h; rw [hpc] at hpa; cases hpa
      · exact mem_dropWhile_of_neg h hpc
    · rw [List.dropWhile_cons, if_neg hpa]
      exact hc

theorem mem_pyStripL {c : Char} {l : List Char} (hc : c ∈ l)
    (hw : c.isWhitespace = false) : c ∈ pyStripL l := by
  unfold pyStripL
  apply List.mem_reverse.mpr
  apply mem_dropWhile_of_neg _ hw
  exact List.mem_reverse.mpr (mem_dropWhile_of_neg hc hw)

theorem pyStripL_ne_nil {c : Char} {l : List Char} (hc : c ∈ l)
    (hw : c.isWhitespace = false) : pyStripL l ≠ [] :=
  List.ne_nil_of_mem (mem_pyStripL hc hw)

theorem pyJoin_cons_exists (sep a : String) (rest : List String) :
    ∃ t, pyJoin sep (a :: rest) = a ++ t := by
  cases rest with
  | nil => exact ⟨"", by simp [pyJoin]⟩
  | cons b bs => exact ⟨sep ++ pyJoin sep (b :: bs), by simp [pyJoin, String.append_assoc]⟩

theorem string_mk_ne_empty {l : List Char} (h : l ≠ []) : String.mk l ≠ "" := by
  intro he
  exact h (congrArg String.data he)

theorem join_strip_ne_empty {c : Char} {s : String} (hc : c ∈ s.data)
    (hw : c.isWhitespace = false) (rest : List String) :
    pyStripS (pyJoin "\n" (s :: rest)) ≠ "" := by
  obtain ⟨t, ht⟩ := pyJoin_cons_exists "\n" s rest
  unfold pyStripS
  apply string_mk_ne_empty
  apply pyStripL_ne_nil _ hw
  rw [ht, String.data_append]
  exact List.mem_append.mpr (Or.inl hc)

theorem app_context_ne_empty (jobs : Except Unit (List Job))
    (rems : Except Unit (List Reminder)) (files : Except Unit (List FileRec)) :
    app_context jobs rems files ≠ "" := by
  unfold app_context app_context_lines
  exact join_strip_ne_empty (c := 'C') (by decide) (by decide) _

theorem dropWhile_cons_neg {p : Char → Bool} {a : Char} {l : List Char}
    (h : p a = false) : (a :: l).dropWhile p = a :: l := by
  rw [List.dropWhile_cons, if_neg (by simp [h])]

theorem pyStripL_eq_self {a : Char} {l : List Char} (ha : a.isWhitespace = false)
    (hlast : ∀ b, (a :: l).getLast? = some b → b.isWhitespace = false) :
    pyStripL (a :: l) = a :: l := by
  unfold pyStripL
  rw [dropWhile_cons_neg ha]
  have hrev : (a :: l).reverse ≠ [] := by simp
  obtain ⟨b, t, hbt⟩ := List.exists_cons_of_ne_nil hrev
  have hb : b.isWhitespace = false := by
    apply hlast
    rw [← List.head?_reverse, hbt]
    rfl
  rw [hbt, dropWhile_cons_neg hb, ← hbt, List.reverse_reverse]

/-! ### Helper lemmas: whitespace splitting -/

theorem splitWsAux_token {tok : List Char} (hws : ∀ c ∈ tok, c.isWhitespace = false) :
    ∀ (l acc : List Char), splitWsAux (tok ++ l) acc = splitWsAux l (tok.reverse ++ acc) := by
  induction tok with
  | nil => intro l acc; simp
  | cons c ct ih =>
    intro l acc
    have hc : c.isWhitespace = false := hws c (List.mem_cons_self c ct)
    have hct : ∀ d ∈ ct, d.isWhitespace = false := fun d hd => hws d (List.mem_cons_of_mem c hd)
    simp only [List.cons_append, splitWsAux, hc, Bool.false_eq_true, if_false, List.append_eq]
    rw [ih hct l (c :: acc)]
    simp

theorem splitWs_token_space (tok rest : List Char) (hne : tok ≠ [])
    (hws : ∀ c ∈ tok, c.isWhitespace = false) :
    splitWs (tok ++ ' ' :: rest) = tok :: splitWs rest := by
  unfold splitWs
  rw [splitWsAux_token hws (' ' :: rest) []]
  have hs : (' ' : Char).isWhitespace = true := by decide
  simp only [splitWsAux, hs, if_true, List.append_nil]
  rw [if_neg (by simpa using hne)]
  simp

theorem splitWs_single {tok : List Char} (hne : tok ≠ [])
    (hws : ∀ c ∈ tok, c.isWhitespace = false) : splitWs tok = [tok] := by
  unfold splitWs
  have h := splitWsAux_token hws [] []
  rw [List.append_nil] at h
  rw [h]
  simp only [splitWsAux, List.append_nil]
  rw [if_neg (by simpa using hne)]
  simp

/-! ### Helper lemmas: `LIKE` matching -/

theorem anySuffix_iff (f : List Char → Bool) (s : List Char) :
    anySuffix f s = true ↔ ∃ n, f (s.drop n) = true := by
  induction s with
  | nil =>
    constructor
    · intro h; exact ⟨0, h⟩
    · rintro ⟨n, h⟩; simpa using h
  | cons c s ih =>
    simp only [anySuffix, Bool.or_eq_true, ih]
    constructor
    · rintro (h | ⟨n, h⟩)
      · exact ⟨0, h⟩
      · exact ⟨n + 1, h⟩
    · rintro ⟨n, h⟩
      cases n with
      | zero => exact Or.inl h
      | succ n => exact Or.inr ⟨n, h⟩

theorem likeM_pct_nilpat (s : List Char) : likeM ['%'] s = true := by
  have h : likeM ['%'] s = anySuffix (likeM []) s := by simp [likeM]
  rw [h, anySuffix_iff]
  exact ⟨s.length, by simp [likeM]⟩

theorem likeM_lit_pct {q : List Char} (hq : ∀ c ∈ q, c ≠ '%' ∧ c ≠ '_') :
    ∀ s : List Char, likeM (q ++ ['%']) s = true ↔ q.map lowerA <+: s.map lowerA := by
  induction q with
  | nil =>
    intro s
    simp [likeM_pct_nilpat s, List.nil_prefix]
  | cons a q ih =>
    intro s
    have ha := hq a (List.mem_cons_self a q)
    have hrest : ∀ c ∈ q, c ≠ '%' ∧ c ≠ '_' := fun c hc => hq c (List.mem_cons_of_mem a hc)
    cases s with
    | nil =>
      have hstep : likeM ((a :: q) ++ ['%']) [] = false := by
        simp only [List.cons_append, likeM]
        rw [if_neg ha.1]
      rw [hstep]
      simp
    | cons c s =>
      have hstep : likeM ((a :: q) ++ ['%']) (c :: s) =
          ((lowerA a == lowerA c) && likeM (q ++ ['%']) s) := by
        simp only [List.cons_append, likeM, List.append_eq]
        rw [if_neg ha.1, if_neg ha.2]
      rw [hstep]
      simp only [Bool.and_eq_true, beq_iff_eq, List.map_cons, List.cons_prefix_cons,
        ih hrest s]

theorem exists_drop_of_suffix {t l : List Char} (h : t <:+ l) : ∃ n, l.drop n = t := by
  obtain ⟨u, hu⟩ := h
  exact ⟨u.length, by rw [← hu, List.drop_left]⟩

theorem likeM_full_iff {q : List Char} (hq : ∀ c ∈ q, c ≠ '%' ∧ c ≠ '_')
    (s : List Char) :
    likeM ('%' :: (q ++ ['%'])) s = true ↔ q.map lowerA <:+: s.map lowerA := by
  have h0 : likeM ('%' :: (q ++ ['%'])) s = anySuffix (likeM (q ++ ['%'])) s := by
    simp [likeM]
  rw [h0, anySuffix_iff]
  constructor
  · rintro ⟨n, hn⟩
    rw [likeM_lit_pct hq] at hn
    refine List.infix_iff_prefix_suffix.mpr ⟨(s.drop n).map lowerA, hn, ?_⟩
    rw [List.map_drop]
    exact List.drop_suffix n (s.map lowerA)
  · intro h
    obtain ⟨t, hpre, hsuf⟩ := List.infix_iff_prefix_suffix.mp h
    obtain ⟨n, hn⟩ := exists_drop_of_suffix hsuf
    refine ⟨n, ?_⟩
    rw [likeM_lit_pct hq, List.map_drop, hn]
    exact hpre

/-! ### Helper lemmas: histories, counting, sections -/

theorem bool_eq_of_iff {a b : Bool} (h : a = true ↔ b = true) : a = b := by
  cases a <;> cases b <;> simp_all

theorem countMsg_append (m : Msg) (a b : List Msg) :
    countMsg m (a ++ b) = countMsg m a + countMsg m b := by
  simp [countMsg, List.filter_append]

theorem countMsg_single_self (m : Msg) : countMsg m [m] = 1 := by
  simp [countMsg]

theorem le_countMsg_of_mem {m : Msg} {l : List Msg} (h : m ∈ l) : 1 ≤ countMsg m l := by
  unfold countMsg
  have hm : m ∈ l.filter (fun x => decide (x = m)) := List.mem_filter.mpr ⟨h, by simp⟩
  exact List.length_pos.mpr (List.ne_nil_of_mem hm)

theorem lastN_concat (msgs : List StoredMsg) (u : StoredMsg) :
    lastN 16 (msgs ++ [u]) = (msgs.drop ((msgs ++ [u]).length - 16)) ++ [u] := by
  unfold lastN
  apply List.drop_append_of_le_length
  simp only [List.length_append, List.length_cons, List.length_nil]
  omega

theorem user_mem_history (msgs : List StoredMsg) (text : String) :
    (⟨"user", text⟩ : Msg) ∈ history_section (msgs ++ [⟨"user", text⟩]) := by
  unfold history_section ai_get_messages
  apply List.mem_map.mpr
  refine ⟨⟨"user", text⟩, ?_, rfl⟩
  apply List.mem_filter.mpr
  refine ⟨?_, by simp⟩
  rw [lastN_concat]
  exact List.mem_append.mpr (Or.inr (by simp))

theorem history_section_concat (msgs : List StoredMsg) (text : String) :
    ∃ h, history_section (msgs ++ [⟨"user", text⟩]) = h ++ [(⟨"user", text⟩ : Msg)] := by
  unfold history_section ai_get_messages
  rw [lastN_concat, List.filter_append, List.map_append]
  have h2 : List.map (fun m : StoredMsg => (⟨m.role, m.content⟩ : Msg))
      (List.filter (fun m => m.role == "user" || m.role == "assistant")
        [⟨"user", text⟩]) = [(⟨"user", text⟩ : Msg)] := by simp
  rw [h2]
  exact ⟨_, rfl⟩

theorem string_head_append (s t : String) (c : Char) (h : s.data.head? = some c) :
    (s ++ t).data.head? = some c := by
  rw [String.data_append]
  cases hs : s.data with
  | nil => rw [hs] at h; cases h
  | cons a l =>
    rw [hs] at h
    cases h
    rfl

theorem mem_line_head (m : Mem) : (mem_line m).data.head? = some '-' := by
  unfold mem_line
  apply string_head_append
  apply string_head_append
  apply string_head_append
  apply string_head_append
  apply string_head_append
  decide

theorem mem_line_ne_rel_header (m : Mem) : mem_line m ≠ "\nRelevant:" := by
  intro h
  have hd : (mem_line m).data.head? = ("\nRelevant:" : String).data.head? := by rw [h]
  rw [mem_line_head m] at hd
  exact absurd hd (by decide)

theorem mem_sort_take_of_le {ms : List Mem} (h : ms.length ≤ 50) {m : Mem} (hm : m ∈ ms) :
    m ∈ (List.insertionSort memBefore ms).take 50 := by
  rw [List.take_of_length_le (by rw [List.length_insertionSort]; exact h)]
  exact ((List.perm_insertionSort memBefore ms).mem_iff).mpr hm

theorem likeM_of_mem_search {q : String} {limit : Nat} {ms : List Mem} {m : Mem}
    (h : m ∈ ai_search_memories q limit ms) : likeM (patOf q) m.content.data = true := by
  unfold ai_search_memories at h
  have h1 := List.mem_of_mem_take h
  have h2 := (List.perm_insertionSort memBefore _).mem_iff.mp h1
  exact (List.mem_filter.mp h2).2

theorem clip_length_le (s : String) (mc : Nat) :
    (clip s mc).length ≤ mc + truncMarker.length := by
  unfold clip
  by_cases h : (pyStripL s.data).length ≤ mc
  · rw [if_pos h]
    have he : (String.mk (pyStripL s.data)).length = (pyStripL s.data).length := rfl
    omega
  · rw [if_neg h]
    have h1 : (String.mk ((pyStripL s.data).take mc ++ truncMarker)).length
        = ((pyStripL s.data).take mc).length + truncMarker.length := by
      show ((pyStripL s.data).take mc ++ truncMarker).length = _
      rw [List.length_append]
    rw [h1]
    have h2 : ((pyStripL s.data).take mc).length ≤ mc := by
      rw [List.length_take]
      exact inf_le_left
    omega

/-! ### Claims -/

/-- C2, counterexample: for the text file content `"ab"` and `max_chars = 1`
the extractor returns `"a\n\n[...truncated...]"`, which is 20 characters —
longer than `max_chars`.  The claim "the text returned by the attachment
extractor is never longer than max_chars characters" is false. -/
theorem c2_counterexample :
    ¬ ((extract_text_from_file (.textFile (some "ab")) 1).2.length ≤ 1) ∧
    (extract_text_from_file (.textFile (some "ab")) 1).2 = "a\n\n[...truncated...]" := by
  decide

/-- C2, amended: the extractor's text is never longer than `max_chars` plus
the 19-character truncation marker; a stripped source text within
`max_chars` is returned unchanged, and an exceeding one is truncated to
exactly `max_chars` characters with the marker appended. -/
theorem c2_clip_truncation :
    ∀ (text : String) (max_chars : Nat),
      (clip text max_chars).length ≤ max_chars + truncMarker.length ∧
      ((pyStripL text.data).length ≤ max_chars →
        (clip text max_chars).data = pyStripL text.data) ∧
      (max_chars < (pyStripL text.data).length →
        (clip text max_chars).data = (pyStripL text.data).take max_chars ++ truncMarker) ∧
      (∀ input : FileInput,
        ((extract_text_from_file input max_chars).2).length ≤
          max_chars + truncMarker.length) := by
  intro text mc
  refine ⟨clip_length_le text mc, ?_, ?_, ?_⟩
  · intro h
    unfold clip
    rw [if_pos h]
  · intro h
    unfold clip
    rw [if_neg (by omega)]
  · intro input
    cases input with
    | missing => exact Nat.zero_le _
    | textFile raw =>
      cases raw with
      | none => exact Nat.zero_le _
      | some t => exact clip_length_le t mc
    | docxFile raw =>
      cases raw with
      | none => exact Nat.zero_le _
      | some t => exact clip_length_le t mc
    | pdfFile raw =>
      cases raw with
      | none => exact Nat.zero_le _
      | some t => exact clip_length_le t mc
    | other => exact Nat.zero_le _

/-- C2, witness for the amended claim at a concrete input: `"abcd"` with
`max_chars = 2` is cut to two characters plus the marker. -/
theorem c2_clip_truncation_witness :
    (clip "abcd" 2).data = ("abcd".data.take 2) ++ truncMarker :=
  (c2_clip_truncation "abcd" 2).2.2.1 (by decide)

/-- C5: in one turn the user message is appended to the store first; the
assistant message is appended exactly when the stream completes
(`_on_done`), with the cleaned final text; on a stream error or
interruption (`_on_error`) nothing further is written, so the next turn's
history (`ai_get_messages`) sees only the user message. -/
theorem c5_persistence_order :
    ∀ (msgs : List StoredMsg) (text : String),
      (∀ e, run_turn msgs text (.error e) = msgs ++ [⟨"user", text⟩]) ∧
      (∀ full, run_turn msgs text (.done full) =
        msgs ++ [⟨"user", text⟩, ⟨"assistant", final_assistant_text full⟩]) ∧
      (∀ e, (run_turn msgs text (.error e)).filter (fun m => m.role == "assistant") =
        msgs.filter (fun m => m.role == "assistant")) ∧
      (∀ outcome, ∃ tail, run_turn msgs text outcome = msgs ++ ⟨"user", text⟩ :: tail) ∧
      (∀ e, ai_get_messages 16 (run_turn msgs text (.error e)) =
        lastN 16 (msgs ++ [⟨"user", text⟩])) := by
  intro msgs text
  refine ⟨fun e => rfl, fun full => by simp [run_turn], fun e => ?_, fun outcome => ?_,
    fun e => rfl⟩
  · have hu : (("user" : String) == "assistant") = false := by decide
    simp [run_turn, List.filter_append, hu]
  · cases outcome with
    | done full => exact ⟨[⟨"assistant", final_assistant_text full⟩], by simp [run_turn]⟩
    | error e => exact ⟨[], by simp [run_turn]⟩

/-- C8: a user text that strips to nothing yields no "Relevant"
selection — the memory context is pinned-only, and the "Relevant" header
never appears; search is not implicitly turned into a wildcard query. -/
theorem c8_empty_query_pinned_only :
    ∀ (ms : List Mem) (q : String), pyStripL q.data = [] →
      (memory_context_sel ms q).2 = [] ∧
      "\nRelevant:" ∉ memory_context_lines ms q := by
  intro ms q hq
  have hrel : (memory_context_sel ms q).2 = [] := by
    unfold memory_context_sel
    simp [hq]
  refine ⟨hrel, ?_⟩
  intro hmem
  have hL : memory_context_lines ms q =
      (if (memory_context_sel ms q).1 = [] then []
       else "User memory context:" ::
        "\nPinned:" :: (memory_context_sel ms q).1.map mem_line) := by
    unfold memory_context_lines
    by_cases h : (memory_context_sel ms q).1 = [] <;> simp [hrel, h]
  rw [hL] at hmem
  by_cases hp : (memory_context_sel ms q).1 = []
  · rw [if_pos hp] at hmem
    cases hmem
  · rw [if_neg hp] at hmem
    rcases List.mem_cons.mp hmem with h | h
    · exact absurd h (by decide)
    · rcases List.mem_cons.mp h with h2 | h2
      · exact absurd h2 (by decide)
      · obtain ⟨m, _, hml⟩ := List.mem_map.mp h2
        exact mem_line_ne_rel_header m hml

/-- C8, witness: with one stored memory and the whitespace-only query
`" "`, the relevant selection is empty. -/
theorem c8_empty_query_pinned_only_witness :
    (memory_context_sel [⟨1, "", "fact", "remote", 5, 1⟩] " ").2 = [] :=
  (c8_empty_query_pinned_only [⟨1, "", "fact", "remote", 5, 1⟩] " " (by decide)).1

/-- C10: the attachment context holds a header plus one block per
attachment of `attachments[-3:]`: exactly the three most recently added
attachments in addition order when more than three exist, all of them
(in order) otherwise.  Earlier attachments contribute no block even though
the session list still holds them (the builder is read-only). -/
theorem c10_attachments_last_three :
    ∀ (pre l3 atts : List Attachment),
      (l3.length = 3 →
        attachments_context_blocks (pre ++ l3) =
          "Attached documents below are available to you as text. Use them directly as ground truth." ::
            l3.map att_block) ∧
      (atts ≠ [] → atts.length ≤ 3 →
        attachments_context_blocks atts =
          "Attached documents below are available to you as text. Use them directly as ground truth." ::
            atts.map att_block) := by
  intro pre l3 atts
  constructor
  · intro h3
    have hl3 : l3 ≠ [] := by
      intro h
      rw [h] at h3
      cases h3
    unfold attachments_context_blocks
    rw [if_neg (by simp [List.isEmpty_iff]; intro _ h; exact hl3 h)]
    have hlen : (pre ++ l3).length - 3 = pre.length := by
      rw [List.length_append, h3]
      omega
    rw [hlen, List.drop_left]
  · intro hne hle
    unfold attachments_context_blocks
    rw [if_neg (by simp [List.isEmpty_iff]; exact hne)]
    have hlen : atts.length - 3 = 0 := by omega
    rw [hlen, List.drop_zero]

/-- C10, witness: with four attachments, the context holds blocks for the
last three only, in order. -/
theorem c10_attachments_last_three_witness :
    attachments_context_blocks
        ([⟨"p0", "a0", "TEXT", "t0", "s"⟩] ++
          [⟨"p1", "a1", "TEXT", "t1", "s"⟩, ⟨"p2", "a2", "TEXT", "t2", "s"⟩,
            ⟨"p3", "a3", "TEXT", "t3", "s"⟩]) =
      "Attached documents below are available to you as text. Use them directly as ground truth." ::
        ([⟨"p1", "a1", "TEXT", "t1", "s"⟩, ⟨"p2", "a2", "TEXT", "t2", "s"⟩,
          ⟨"p3", "a3", "TEXT", "t3", "s"⟩] : List Attachment).map att_block :=
  (c10_attachments_last_three [⟨"p0", "a0", "TEXT", "t0", "s"⟩]
    [⟨"p1", "a1", "TEXT", "t1", "s"⟩, ⟨"p2", "a2", "TEXT", "t2", "s"⟩,
      ⟨"p3", "a3", "TEXT", "t3", "s"⟩] []).1 (by decide)

/-- C3, counterexample: the pinned fetch is bounded by `LIMIT 50`.  With 51
pinned memories of equal importance, memory `#1` (lowest id, hence ranked
last) is pinned and in the store but absent from the "Pinned" selection of
the memory context, so "each pinned memory appears in the Pinned section
for every store state" is false. -/
theorem c3_counterexample :
    (⟨1, "", "fact", "note", 5, 1⟩ : Mem) ∈
        (List.range 51).map (fun i => (⟨i + 1, "", "fact", "note", 5, 1⟩ : Mem)) ∧
    (⟨1, "", "fact", "note", 5, 1⟩ : Mem).pinned = 1 ∧
    (⟨1, "", "fact", "note", 5, 1⟩ : Mem) ∉
        (memory_context_sel
          ((List.range 51).map (fun i => (⟨i + 1, "", "fact", "note", 5, 1⟩ : Mem)))
          "query").1 := by
  decide

/-- C3, amended: as long as the store holds at most 50 memories (the pinned
fetch limit), every pinned memory appears in the "Pinned" selection
regardless of the query; no memory of the "Pinned" selection is duplicated
in the "Relevant" selection (their id sets are disjoint, for every store);
and a memory appears in "Relevant" only when its content matches the
query's `LIKE` pattern. -/
theorem c3_pinned_always_included :
    ∀ (ms : List Mem) (q : String),
      (ms.length ≤ 50 → ∀ m ∈ ms, m.pinned = 1 → m ∈ (memory_context_sel ms q).1) ∧
      (∀ m ∈ (memory_context_sel ms q).2,
        m.id ∉ (memory_context_sel ms q).1.map (fun m => m.id)) ∧
      (∀ m ∈ (memory_context_sel ms q).2, likeM (patOf q) m.content.data = true) := by
  intro ms q
  have hsel1 : (memory_context_sel ms q).1 =
      (ai_list_memories true 50 ms).filter (fun m => m.pinned == 1) := rfl
  have hsel2 : (memory_context_sel ms q).2 =
      (if pyStripL q.data = [] then [] else ai_search_memories q 20 ms).filter
        (fun m => decide (m.id ∉
          ((ai_list_memories true 50 ms).filter (fun m => m.pinned == 1)).map
            (fun m => m.id))) := rfl
  refine ⟨?_, ?_, ?_⟩
  · intro h50 m hm hp
    rw [hsel1]
    apply List.mem_filter.mpr
    refine ⟨?_, by simp [hp]⟩
    unfold ai_list_memories
    rw [if_pos rfl]
    exact mem_sort_take_of_le h50 hm
  · intro m hm
    rw [hsel2] at hm
    have h2 := (List.mem_filter.mp hm).2
    rw [decide_eq_true_iff] at h2
    rw [hsel1]
    exact h2
  · intro m hm
    rw [hsel2] at hm
    have h1 := (List.mem_filter.mp hm).1
    by_cases hq : pyStripL q.data = []
    · rw [if_pos hq] at h1
      cases h1
    · rw [if_neg hq] at h1
      exact likeM_of_mem_search h1

/-- C3, witness: a single pinned memory and an unrelated query — the
memory is still selected for the "Pinned" section. -/
theorem c3_pinned_always_included_witness :
    (⟨1, "", "fact", "prefers remote roles", 5, 1⟩ : Mem) ∈
      (memory_context_sel [⟨1, "", "fact", "prefers remote roles", 5, 1⟩]
        "Should I apply to this onsite job?").1 :=
  (c3_pinned_always_included [⟨1, "", "fact", "prefers remote roles", 5, 1⟩]
    "Should I apply to this onsite job?").1 (by decide)
    ⟨1, "", "fact", "prefers remote roles", 5, 1⟩ (by decide) (by decide)

/-- C6: each snapshot section renders one line per fetched record under its
cap (jobs and files capped at 10, reminder lines at 12); an empty or failed
section renders the explicit "none" line instead of disappearing, a failed
section is rendered exactly like an empty one, and the other sections are
unaffected.  With exactly three jobs, no reminders and no files the
snapshot is the header, the jobs header, three job lines, and the two
"none" lines. -/
theorem c6_snapshot_rendering :
    ∀ (js : List Job) (rs : List Reminder) (fs : List FileRec)
      (jobE : Except Unit (List Job)) (remE : Except Unit (List Reminder))
      (fileE : Except Unit (List FileRec)),
      jobs_section (.error ()) = jobs_section (.ok []) ∧
      reminders_section (.error ()) = reminders_section (.ok []) ∧
      files_section (.error ()) = files_section (.ok []) ∧
      app_context_lines (.error ()) remE fileE = app_context_lines (.ok []) remE fileE ∧
      app_context_lines jobE (.error ()) fileE = app_context_lines jobE (.ok []) fileE ∧
      app_context_lines jobE remE (.error ()) = app_context_lines jobE remE (.ok []) ∧
      jobs_section (.ok []) = ["\nRecent job applications: none"] ∧
      reminders_section (.ok []) = ["\nUpcoming reminders (7 days): none"] ∧
      files_section (.ok []) = ["\nRecent File Vault items: none"] ∧
      (js ≠ [] → jobs_section (.ok js) =
        "\nRecent job applications:" :: (js.take 10).map job_line ∧
        ((js.take 10).map job_line).length = min 10 js.length) ∧
      (rs ≠ [] → reminders_section (.ok rs) =
        "\nUpcoming reminders (7 days):" :: (rs.map reminder_line).take 12 ∧
        ((rs.map reminder_line).take 12).length = min 12 rs.length) ∧
      (fs ≠ [] → files_section (.ok fs) =
        "\nRecent File Vault items:" :: (fs.take 10).map file_line) ∧
      (∀ j1 j2 j3 : Job,
        app_context_lines (.ok [j1, j2, j3]) (.ok []) (.ok []) =
          ["CareerBuddy app context (read-only):",
            "\nRecent job applications:", job_line j1, job_line j2, job_line j3,
            "\nUpcoming reminders (7 days): none",
            "\nRecent File Vault items: none"]) := by
  intro js rs fs jobE remE fileE
  refine ⟨rfl, rfl, rfl, rfl, rfl, rfl, rfl, rfl, rfl, ?_, ?_, ?_, ?_⟩
  · intro hne
    obtain ⟨a, t, rfl⟩ := List.exists_cons_of_ne_nil hne
    constructor
    · unfold jobs_section
      rw [if_neg (by simp [List.take_cons])]
    · rw [List.length_map, List.length_take]
  · intro hne
    obtain ⟨a, t, rfl⟩ := List.exists_cons_of_ne_nil hne
    constructor
    · unfold reminders_section
      rw [if_neg (by simp)]
    · rw [List.length_take, List.length_map]
  · intro hne
    obtain ⟨a, t, rfl⟩ := List.exists_cons_of_ne_nil hne
    unfold files_section
    rw [if_neg (by simp [List.take_cons])]
  · intro j1 j2 j3
    unfold app_context_lines jobs_section reminders_section files_section
    simp

/-- C6, witness: one job, nonempty reminder and file lists at concrete
values. -/
theorem c6_snapshot_rendering_witness :
    jobs_section (.ok [⟨1, "Acme", "Dev", "To Apply", "", "2024-01-01"⟩]) =
      "\nRecent job applications:" ::
        (([⟨1, "Acme", "Dev", "To Apply", "", "2024-01-01"⟩] : List Job).take 10).map job_line ∧
    (((([⟨1, "Acme", "Dev", "To Apply", "", "2024-01-01"⟩] : List Job).take 10).map job_line).length =
      min 10 ([⟨1, "Acme", "Dev", "To Apply", "", "2024-01-01"⟩] : List Job).length) :=
  (c6_snapshot_rendering [⟨1, "Acme", "Dev", "To Apply", "", "2024-01-01"⟩] [] []
    (.ok []) (.ok []) (.ok [])).2.2.2.2.2.2.2.2.2.1 (by decide)

/-- C7, counterexample: search matches with SQL `LIKE`, not substring
containment — `_` in the query `"a_c"` matches the `b` of `"abc"` although
`"a_c"` is not a substring of `"abc"`; the query is stripped first, so
`" a "` matches `"xax"` although `" a "` is not a substring; and
`list(pinned_first=False)` orders by recency only, not by
(pinned, importance, recency). -/
theorem c7_counterexample :
    ((⟨1, "", "fact", "abc", 5, 0⟩ : Mem) ∈
        ai_search_memories "a_c" 30 [⟨1, "", "fact", "abc", 5, 0⟩] ∧
      ¬ (("a_c".data.map lowerA) <:+: ("abc".data.map lowerA))) ∧
    ((⟨1, "", "fact", "xax", 5, 0⟩ : Mem) ∈
        ai_search_memories " a " 30 [⟨1, "", "fact", "xax", 5, 0⟩] ∧
      ¬ ((" a ".data.map lowerA) <:+: ("xax".data.map lowerA))) ∧
    ai_list_memories false 10 [⟨1, "", "f", "x", 5, 1⟩, ⟨2, "", "f", "y", 5, 0⟩] ≠
      (List.insertionSort memBefore
        [⟨1, "", "f", "x", 5, 1⟩, ⟨2, "", "f", "y", 5, 0⟩]).take 10 := by
  decide

/-- C7, amended: search filters with the `LIKE` pattern built from the
stripped query; for an already-stripped query without the `%` and `_`
wildcards this is exactly ASCII-case-insensitive substring containment, and
the result is the matching memories ordered by (pinned desc, importance
desc, id desc), at most `limit` of them.  `list(pinned_first=True)` uses
the same ordering and bound; `list(pinned_first=False)` orders by id
descending only. -/
theorem c7_search_is_ci_substring :
    ∀ (q : String) (limit : Nat) (ms : List Mem),
      ((∀ c ∈ q.data, c ≠ '%' ∧ c ≠ '_') → pyStripL q.data = q.data →
        ai_search_memories q limit ms = search_spec q limit ms) ∧
      ai_list_memories true limit ms = (List.insertionSort memBefore ms).take limit ∧
      ai_list_memories false limit ms = (List.insertionSort idDesc ms).take limit ∧
      (ai_search_memories q limit ms).length ≤ limit ∧
      (ai_list_memories true limit ms).length ≤ limit := by
  intro q limit ms
  refine ⟨?_, by simp [ai_list_memories], by simp [ai_list_memories], ?_, ?_⟩
  · intro hq hstrip
    unfold ai_search_memories search_spec
    congr 1
    congr 1
    apply List.filter_congr
    intro m _
    apply bool_eq_of_iff
    have h1 : likeM (patOf q) m.content.data = true ↔
        (q.data.map lowerA) <:+: (m.content.data.map lowerA) := by
      unfold patOf
      rw [hstrip]
      exact likeM_full_iff hq m.content.data
    rw [h1, decide_eq_true_iff]
  · unfold ai_search_memories
    rw [List.length_take]
    exact inf_le_left
  · unfold ai_list_memories
    rw [if_pos rfl, List.length_take]
    exact inf_le_left

/-- C7, witness for the amended claim: a wildcard-free query against one
memory whose content contains it case-insensitively. -/
theorem c7_search_is_ci_substring_witness :
    ai_search_memories "remote" 5 [⟨1, "", "fact", "Prefers REMOTE roles", 5, 0⟩] =
      search_spec "remote" 5 [⟨1, "", "fact", "Prefers REMOTE roles", 5, 0⟩] :=
  (c7_search_is_ci_substring "remote" 5
    [⟨1, "", "fact", "Prefers REMOTE roles", 5, 0⟩]).1 (by decide) (by decide)

/-- C4, counterexample: a failed jobs read does not abort context building —
`_app_context` catches it and renders the jobs section as the explicit
"none" line, and the builder returns a message list; so "the Context
Builder raises a storage error for every contributing store read
(jobs, reminders, files, ...)" is false. -/
theorem c4_counterexample :
    build_messages ⟨.error (), .ok [], .ok [], .ok [], .ok [], []⟩ "hi" ≠
      Except.error () ∧
    "\nRecent job applications: none" ∈
      app_context_lines (.error ()) (.ok []) (.ok []) := by
  constructor
  · intro h
    have hok : build_messages ⟨.error (), .ok [], .ok [], .ok [], .ok [], []⟩ "hi" =
        Except.ok
          [⟨"system",
            "CareerBuddy app context (read-only):\n\nRecent job applications: none\n\nUpcoming reminders (7 days): none\n\nRecent File Vault items: none"⟩,
            ⟨"user", "hi"⟩] := rfl
    rw [hok] at h
    exact Except.noConfusion h
  · decide

/-- C4, amended: a storage failure of the memory read or of the
conversation-history read propagates out of `_build_messages` as a raised
error, never as a silently degraded list; only the snapshot's own section
reads (jobs, reminders, files) degrade per-section as specified for the
Application State Snapshot.  When the memory and history reads succeed the
builder returns a message list. -/
theorem c4_store_error_propagation :
    ∀ (v : View) (text : String),
      (v.memories = .error () ∨ v.messages = .error () →
        build_messages v text = .error ()) ∧
      (∀ ms msgs, v.memories = .ok ms → v.messages = .ok msgs →
        ∃ l, build_messages v text = .ok l) := by
  intro v text
  constructor
  · intro h
    rcases h with h | h
    · simp [build_messages, h, Bind.bind, Except.bind]
    · cases hm : v.memories with
      | error e =>
        cases e
        simp [build_messages, hm, Bind.bind, Except.bind]
      | ok ms => simp [build_messages, hm, h, Bind.bind, Except.bind]
  · intro ms msgs hm hs
    have hok : build_messages v text = Except.ok
        ((if app_context v.jobs v.reminders v.files = "" then []
          else [⟨"system", app_context v.jobs v.reminders v.files⟩]) ++
          ((if memory_context ms text = "" then []
            else [⟨"system", memory_context ms text⟩]) ++
            ((if attachments_context v.attachments = "" then []
              else [⟨"system", attachments_context v.attachments⟩]) ++
              (history_section msgs ++ [⟨"user", text⟩])))) := by
      simp [build_messages, hm, hs, Bind.bind, Except.bind, pure, Except.pure]
    exact ⟨_, hok⟩

/-- C4, witness: a view whose memory read fails makes the builder raise. -/
theorem c4_store_error_propagation_witness :
    build_messages ⟨.ok [], .ok [], .ok [], .error (), .ok [], []⟩ "hi" =
      Except.error () :=
  (c4_store_error_propagation ⟨.ok [], .ok [], .ok [], .error (), .ok [], []⟩ "hi").1
    (Or.inl rfl)

/-- C1, counterexample: `send` persists the user message before calling
`_build_messages`, so for an empty store and user text `"hi"` the built
list contains the entry `{role=user, content="hi"}` twice (once as the most
recent history row, once as the final current message) — not exactly
once. -/
theorem c1_counterexample :
    countMsg ⟨"user", "hi"⟩ (build_turn ⟨[], [], [], [], [], []⟩ "hi") = 2 ∧
    countMsg ⟨"user", "hi"⟩ (build_turn ⟨[], [], [], [], [], []⟩ "hi") ≠ 1 := by
  decide

/-- C1, amended: for every user turn the built list is, in this fixed
order: the application snapshot (role system, always present and always
first), the memory context (omitted when empty), the attachment context
(omitted when no attachments), the last 16 stored messages oldest-first
with roles outside {user, assistant} dropped, and the current user message
(role user) last.  Because the user message is persisted before building,
it is also the last history entry, so the pair {user, text} occurs at
least twice rather than exactly once. -/
theorem c1_build_turn_structure :
    ∀ (st : ChatState) (text : String),
      build_turn st text =
        ((if app_context (.ok st.jobs) (.ok st.reminders) (.ok st.files) = "" then []
          else [⟨"system", app_context (.ok st.jobs) (.ok st.reminders) (.ok st.files)⟩]) ++
          ((if memory_context st.memories text = "" then []
            else [⟨"system", memory_context st.memories text⟩]) ++
            ((if attachments_context st.attachments = "" then []
              else [⟨"system", attachments_context st.attachments⟩]) ++
              (history_section (st.messages ++ [⟨"user", text⟩]) ++ [⟨"user", text⟩])))) ∧
      (build_turn st text).head? =
        some ⟨"system", app_context (.ok st.jobs) (.ok st.reminders) (.ok st.files)⟩ ∧
      (build_turn st text).getLast? = some ⟨"user", text⟩ ∧
      2 ≤ countMsg ⟨"user", text⟩ (build_turn st text) ∧
      (∀ m ∈ history_section (st.messages ++ [⟨"user", text⟩]),
        m.role = "user" ∨ m.role = "assistant") ∧
      (history_section (st.messages ++ [⟨"user", text⟩])).getLast? =
        some ⟨"user", text⟩ := by
  intro st text
  have hdec : build_turn st text =
      ((if app_context (.ok st.jobs) (.ok st.reminders) (.ok st.files) = "" then []
        else [⟨"system", app_context (.ok st.jobs) (.ok st.reminders) (.ok st.files)⟩]) ++
        ((if memory_context st.memories text = "" then []
          else [⟨"system", memory_context st.memories text⟩]) ++
          ((if attachments_context st.attachments = "" then []
            else [⟨"system", attachments_context st.attachments⟩]) ++
            (history_section (st.messages ++ [⟨"user", text⟩]) ++ [⟨"user", text⟩])))) := rfl
  refine ⟨hdec, ?_, ?_, ?_, ?_, ?_⟩
  · rw [hdec, if_neg (app_context_ne_empty _ _ _)]
    rfl
  · rw [hdec]
    simp only [← List.append_assoc]
    rw [List.getLast?_concat]
  · rw [hdec]
    simp only [countMsg_append]
    have h1 := le_countMsg_of_mem (user_mem_history st.messages text)
    have h2 := countMsg_single_self (⟨"user", text⟩ : Msg)
    omega
  · intro m hm
    unfold history_section at hm
    obtain ⟨sm, hsm, rfl⟩ := List.mem_map.mp hm
    have h2 := (List.mem_filter.mp hsm).2
    simp only [Bool.or_eq_true, beq_iff_eq] at h2
    exact h2
  · obtain ⟨h, hh⟩ := history_section_concat st.messages text
    rw [hh, List.getLast?_concat]

theorem mem_of_getLast?_some {l : List Char} {b : Char} (h : l.getLast? = some b) :
    b ∈ l := by
  have hx : b ∈ l.getLast? := h
  obtain ⟨hne, hb⟩ := List.mem_getLast?_eq_getLast hx
  rw [hb]
  exact List.getLast_mem hne

theorem getLast?_append_ne {l l' : List Char} (h : l' ≠ []) :
    (l ++ l').getLast? = l'.getLast? := by
  rw [List.getLast?_append]
  cases hl : l'.getLast? with
  | none => exact absurd (List.getLast?_eq_none_iff.mp hl) h
  | some x => rfl

theorem strip_cmdline {a : Char} {t arg : List Char} (ha : a.isWhitespace = false)
    (harg : arg ≠ []) (haw : ∀ c ∈ arg, c.isWhitespace = false) :
    pyStripL (a :: (t ++ ' ' :: arg)) = a :: (t ++ ' ' :: arg) := by
  apply pyStripL_eq_self ha
  intro b hb
  have hshape : a :: (t ++ ' ' :: arg) = (a :: t ++ [' ']) ++ arg := by simp
  rw [hshape, getLast?_append_ne harg] at hb
  exact haw b (mem_of_getLast?_some hb)

/-- C9: for `/pin`, `/unpin` and `/forget`, a missing argument or an
argument `int(...)` rejects produces a user-facing hint bubble, performs no
store mutation, and raises nothing (the handler is a total function whose
error branch is the hint response). -/
theorem c9_command_argument_validation :
    ∀ (ms : List Mem) (arg : List Char), arg ≠ [] →
      (∀ c ∈ arg, c.isWhitespace = false) → pyInt (String.mk arg) = none →
      handle_command (String.mk ("/pin".data ++ ' ' :: arg)) ms =
        ⟨true, ["Could not pin that memory id."], []⟩ ∧
      handle_command (String.mk ("/unpin".data ++ ' ' :: arg)) ms =
        ⟨true, ["Could not unpin that memory id."], []⟩ ∧
      handle_command (String.mk ("/forget".data ++ ' ' :: arg)) ms =
        ⟨true, ["Could not delete that memory id."], []⟩ ∧
      handle_command "/pin" ms = ⟨true, ["Usage: /pin <memory_id>"], []⟩ ∧
      handle_command "/unpin" ms = ⟨true, ["Usage: /unpin <memory_id>"], []⟩ ∧
      handle_command "/forget" ms = ⟨true, ["Usage: /forget <memory_id>"], []⟩ := by
  intro ms arg harg haw hint
  refine ⟨?_, ?_, ?_, rfl, rfl, rfl⟩
  · have hstrip : pyStripL ('/' :: 'p' :: 'i' :: 'n' :: ' ' :: arg) =
        '/' :: 'p' :: 'i' :: 'n' :: ' ' :: arg :=
      strip_cmdline (t := ['p', 'i', 'n']) (by decide) harg haw
    have hsplit : splitWs ('/' :: 'p' :: 'i' :: 'n' :: ' ' :: arg) =
        [['/', 'p', 'i', 'n'], arg] := by
      have h1 := splitWs_token_space ['/', 'p', 'i', 'n'] arg (by decide) (by decide)
      rw [splitWs_single harg haw] at h1
      exact h1
    show handle_command (String.mk ('/' :: 'p' :: 'i' :: 'n' :: ' ' :: arg)) ms = _
    unfold handle_command
    rw [show (String.mk ('/' :: 'p' :: 'i' :: 'n' :: ' ' :: arg)).data =
      '/' :: 'p' :: 'i' :: 'n' :: ' ' :: arg from rfl, hstrip, hsplit]
    rw [if_pos (by rfl)]
    show handle_slash _ _ ms = _
    unfold handle_slash
    rw [show String.mk ([['/', 'p', 'i', 'n'], arg].getD 1 []) = String.mk arg from rfl,
      hint]
    rfl
  · have hstrip : pyStripL ('/' :: 'u' :: 'n' :: 'p' :: 'i' :: 'n' :: ' ' :: arg) =
        '/' :: 'u' :: 'n' :: 'p' :: 'i' :: 'n' :: ' ' :: arg :=
      strip_cmdline (t := ['u', 'n', 'p', 'i', 'n']) (by decide) harg haw
    have hsplit : splitWs ('/' :: 'u' :: 'n' :: 'p' :: 'i' :: 'n' :: ' ' :: arg) =
        [['/', 'u', 'n', 'p', 'i', 'n'], arg] := by
      have h1 := splitWs_token_space ['/', 'u', 'n', 'p', 'i', 'n'] arg (by decide) (by decide)
      rw [splitWs_single harg haw] at h1
      exact h1
    show handle_command (String.mk ('/' :: 'u' :: 'n' :: 'p' :: 'i' :: 'n' :: ' ' :: arg)) ms = _
    unfold handle_command
    rw [show (String.mk ('/' :: 'u' :: 'n' :: 'p' :: 'i' :: 'n' :: ' ' :: arg)).data =
      '/' :: 'u' :: 'n' :: 'p' :: 'i' :: 'n' :: ' ' :: arg from rfl, hstrip, hsplit]
    rw [if_pos (by rfl)]
    show handle_slash _ _ ms = _
    unfold handle_slash
    rw [show String.mk ([['/', 'u', 'n', 'p', 'i', 'n'], arg].getD 1 []) = String.mk arg from
      rfl, hint]
    rfl
  · have hstrip : pyStripL ('/' :: 'f' :: 'o' :: 'r' :: 'g' :: 'e' :: 't' :: ' ' :: arg) =
        '/' :: 'f' :: 'o' :: 'r' :: 'g' :: 'e' :: 't' :: ' ' :: arg :=
      strip_cmdline (t := ['f', 'o', 'r', 'g', 'e', 't']) (by decide) harg haw
    have hsplit : splitWs ('/' :: 'f' :: 'o' :: 'r' :: 'g' :: 'e' :: 't' :: ' ' :: arg) =
        [['/', 'f', 'o', 'r', 'g', 'e', 't'], arg] := by
      have h1 := splitWs_token_space ['/', 'f', 'o', 'r', 'g', 'e', 't'] arg
        (by decide) (by decide)
      rw [splitWs_single harg haw] at h1
      exact h1
    show handle_command
      (String.mk ('/' :: 'f' :: 'o' :: 'r' :: 'g' :: 'e' :: 't' :: ' ' :: arg)) ms = _
    unfold handle_command
    rw [show (String.mk ('/' :: 'f' :: 'o' :: 'r' :: 'g' :: 'e' :: 't' :: ' ' :: arg)).data =
      '/' :: 'f' :: 'o' :: 'r' :: 'g' :: 'e' :: 't' :: ' ' :: arg from rfl, hstrip, hsplit]
    rw [if_pos (by rfl)]
    show handle_slash _ _ ms = _
    unfold handle_slash
    rw [show String.mk ([['/', 'f', 'o', 'r', 'g', 'e', 't'], arg].getD 1 []) =
      String.mk arg from rfl, hint]
    rfl

/-- C9, witness: `/pin abc` at a concrete store. -/
theorem c9_command_argument_validation_witness :
    handle_command (String.mk ("/pin".data ++ ' ' :: ['a', 'b', 'c']))
        [⟨1, "", "fact", "x", 5, 0⟩] =
      ⟨true, ["Could not pin that memory id."], []⟩ :=
  (c9_command_argument_validation [⟨1, "", "fact", "x", 5, 0⟩] ['a', 'b', 'c']
    (by decide) (by decide) (by decide)).1

/-- C1, witness for the amended claim at the empty store: the current user
message is last, and the {user, "hi"} pair occurs at least twice. -/
theorem c1_build_turn_structure_witness :
    (build_turn ⟨[], [], [], [], [], []⟩ "hi").getLast? = some ⟨"user", "hi"⟩ ∧
    2 ≤ countMsg ⟨"user", "hi"⟩ (build_turn ⟨[], [], [], [], [], []⟩ "hi") :=
  ⟨(c1_build_turn_structure ⟨[], [], [], [], [], []⟩ "hi").2.2.1,
    (c1_build_turn_structure ⟨[], [], [], [], [], []⟩ "hi").2.2.2.1⟩

end CareerBuddy
